import Mathlib

/-!
Verification of the multi-candidate alcohol-label extraction, scoring and
consensus-merging engine.  The definitions below are a shallow embedding of
the TypeScript sources: `src/lib/extraction/heuristics.ts`,
`src/lib/extraction/merger.ts`, `src/lib/extraction/engine.ts`,
`src/lib/compare.ts` and the comparator half of `src/lib/azureBlob.ts`.
Network calls are abstracted by passing the parsed model response (or the
per-deployment outcome function) as an explicit argument; everything else
follows the source line by line.
-/

namespace AlcoholLabel

/-! ## Text primitives

`normalizeText`, `levenshteinDistance` and `similarityRatio` are embedded
from `src/lib/compare.ts`.  JS strings are modelled as Lean `String`
(lists of characters); the regex character classes `\w` and `\s` are the
ASCII word/whitespace classes.
-/

/-- JS `\w`: ASCII letters, digits and underscore. -/
def isWordChar (c : Char) : Bool :=
  c.isAlphanum || c == '_'

/-- JS `\s` restricted to ASCII whitespace characters. -/
def isSpaceChar (c : Char) : Bool :=
  c == ' ' || c == '\t' || c == '\n' || c == '\r' || c == '\x0b' || c == '\x0c'

/-- Replaces each maximal run of whitespace by a single blank
(the `replace(/\s+/g, " ")` step).  The boolean records whether the
previous character was whitespace. -/
def collapseSpacesAux : Bool → List Char → List Char
  | _, [] => []
  | prevSpace, c :: cs =>
    if isSpaceChar c then
      if prevSpace then collapseSpacesAux true cs
      else ' ' :: collapseSpacesAux true cs
    else c :: collapseSpacesAux false cs

/-- Drops leading and trailing blanks (the `trim()` step; after collapsing,
every whitespace character is a blank). -/
def trimBlanks (l : List Char) : List Char :=
  ((l.dropWhile (· == ' ')).reverse.dropWhile (· == ' ')).reverse

/-- `normalizeText` from `src/lib/compare.ts`: lowercase, drop everything
that is neither a word character nor whitespace, collapse whitespace,
trim. -/
def normalizeText (s : String) : String :=
  String.mk (trimBlanks (collapseSpacesAux false
    ((s.toList.map Char.toLower).filter (fun c => isWordChar c || isSpaceChar c))))

/-- Modelled from the spec: the repository imports `normalizeForSimilarity`
from `src/lib/textSimilarity.ts`, which is not among the available sources.
Per spec section 4.4 the similarity normalization is
"case/punctuation/whitespace-folded", which is exactly the in-source
`normalizeText` of `src/lib/compare.ts`. -/
def normalizeForSimilarity (s : String) : String :=
  normalizeText s

/-- `normalizeWhitespace` from the comparator half of `src/lib/azureBlob.ts`:
collapse whitespace runs and trim, nothing else. -/
def normalizeWhitespace (s : String) : String :=
  String.mk (trimBlanks (collapseSpacesAux false s.toList))

/-- `normalizeGovWarning` from `src/lib/azureBlob.ts`:
whitespace-normalize, then uppercase. -/
def normalizeGovWarning (s : String) : String :=
  String.mk ((normalizeWhitespace s).toList.map Char.toUpper)

/-- `startsWith` on character lists; auxiliary for substring search. -/
def listStartsWith : List Char → List Char → Bool
  | _, [] => true
  | [], _ :: _ => false
  | a :: as, b :: bs => a == b && listStartsWith as bs

/-- JS `String.prototype.includes`: `needle` occurs contiguously in
`haystack` (the empty needle always occurs). -/
def listContainsSub : List Char → List Char → Bool
  | [], needle => needle.isEmpty
  | h :: t, needle => listStartsWith (h :: t) needle || listContainsSub t needle

/-- `a.includes(b)` on strings. -/
def stringIncludes (a b : String) : Bool :=
  listContainsSub a.toList b.toList

/-- `levenshteinDistance` from `src/lib/compare.ts` (the same definition as
in the missing `src/lib/textSimilarity.ts`): the standard edit-distance
recurrence of the dynamic-programming matrix, oriented on list heads. -/
def levenshteinDistance : List Char → List Char → Nat
  | [], ys => ys.length
  | x :: xs, [] => (x :: xs).length
  | x :: xs, y :: ys =>
    let cost := if x = y then 0 else 1
    min (levenshteinDistance xs (y :: ys) + 1)
      (min (levenshteinDistance (x :: xs) ys + 1) (levenshteinDistance xs ys + cost))
termination_by a b => a.length + b.length
decreasing_by all_goals simp_arith

/-- `similarityRatio` from `src/lib/compare.ts`: one minus edit distance
divided by the longer length, `1` when both strings are empty. -/
def similarityRatio (s1 s2 : String) : ℚ :=
  let distance := levenshteinDistance s1.toList s2.toList
  let maxLength := max s1.length s2.length
  if maxLength = 0 then 1 else 1 - (distance : ℚ) / (maxLength : ℚ)

/-! ## Data model (`src/lib/schemas.ts`) -/

structure SimpleField where
  text : String
deriving DecidableEq

structure GovernmentWarningField where
  text : String
  isBold : Bool
  isAllCaps : Bool
deriving DecidableEq

structure AdditiveDisclosure where
  fdcYellowNo5 : Bool
  cochinealExtract : Bool
  carmine : Bool
  aspartame : Bool
  sulfitesGe10ppm : Bool
deriving DecidableEq

inductive ProductType where
  | beer | wine | whiskey | rum | otherSpirits
deriving DecidableEq

structure ExtractedAlcoholLabel where
  brandName : Option SimpleField
  classType : Option SimpleField
  alcoholContent : Option SimpleField
  netContents : Option SimpleField
  governmentWarning : Option GovernmentWarningField
  bottlerProducer : Option SimpleField
  countryOfOrigin : Option SimpleField
  additivesDisclosed : Option AdditiveDisclosure
deriving DecidableEq

structure ExpectedAlcoholLabel where
  productType : Option ProductType
  brandName : SimpleField
  classType : SimpleField
  alcoholContent : Option SimpleField
  netContents : SimpleField
  governmentWarning : GovernmentWarningField
  bottlerProducer : SimpleField
  countryOfOrigin : Option SimpleField
  ageYears : Option ℚ
  isImported : Bool
  beerHasAddedFlavorsWithAlcohol : Bool
  additivesDetected : AdditiveDisclosure
deriving DecidableEq

/-- Per-field 0/1 scores (`fieldAccuracySchema`); the zod schema only admits
the literals 0 and 1, modelled as `Nat`. -/
structure FieldAccuracy where
  brandName : Nat
  classType : Nat
  alcoholContent : Nat
  netContents : Nat
  governmentWarning : Nat
  bottlerProducer : Nat
  countryOfOrigin : Nat
  additivesDisclosed : Nat
deriving DecidableEq

structure AccuracyDecision where
  fields : FieldAccuracy
  passed : Bool
deriving DecidableEq

/-- `ExtractionCandidate` from `src/lib/extraction/types.ts` as used by the
engine and merger: the extracted record, the (possibly null) evaluation and
the zero-based attempt index. -/
structure ExtractionCandidate where
  extracted : ExtractedAlcoholLabel
  evaluation : Option AccuracyDecision
  index : Nat
deriving DecidableEq

/-- `FIELD_KEYS` from `src/lib/extraction/heuristics.ts`. -/
inductive FieldKey where
  | brandName | classType | alcoholContent | netContents
  | governmentWarning | bottlerProducer | countryOfOrigin | additivesDisclosed
deriving DecidableEq

/-- Reads one score out of a `FieldAccuracy` (the TS `fields[key]`). -/
def fieldScore (f : FieldAccuracy) : FieldKey → Nat
  | .brandName => f.brandName
  | .classType => f.classType
  | .alcoholContent => f.alcoholContent
  | .netContents => f.netContents
  | .governmentWarning => f.governmentWarning
  | .bottlerProducer => f.bottlerProducer
  | .countryOfOrigin => f.countryOfOrigin
  | .additivesDisclosed => f.additivesDisclosed

/-! ## Field-scope heuristics (`src/lib/extraction/heuristics.ts`) -/

/-- `BEER_CLASS_KEYWORDS`. -/
def BEER_CLASS_KEYWORDS : List String :=
  ["beer", "ale", "lager", "porter", "stout", "malt liquor", "cereal beverage",
   "near beer", "wheat beer", "rye beer", "ice beer", "barley wine",
   "half and half", "black and tan"]

/-- `isBeerClassType`: false on null/empty, otherwise keyword containment on
the lowercased class/type text. -/
def isBeerClassType (value : Option String) : Bool :=
  match value with
  | none => false
  | some v =>
    if v = "" then false
    else BEER_CLASS_KEYWORDS.any
      (fun keyword => listContainsSub (v.toList.map Char.toLower) keyword.toList)

/-- `isWineClassType`: the lowercased class/type text contains "wine". -/
def isWineClassType (value : Option String) : Bool :=
  match value with
  | none => false
  | some v =>
    if v = "" then false
    else listContainsSub (v.toList.map Char.toLower) "wine".toList

/-- Digits of a maximal run, as a natural number accumulator. -/
def digitsToNat (ds : List Char) : Nat :=
  ds.foldl (fun n c => n * 10 + (c.toNat - 48)) 0

/-- `parseAbv`: first match of the regex `\d+(\.\d+)?`, parsed as a number;
`null` when there is no digit at all.  The fractional group only matches
when the dot is followed by at least one digit. -/
def parseAbvChars : List Char → Option ℚ
  | [] => none
  | c :: rest =>
    if c.isDigit then
      let intPart := (c :: rest).takeWhile Char.isDigit
      let afterInt := (c :: rest).dropWhile Char.isDigit
      match afterInt with
      | '.' :: r2 =>
        let fracPart := r2.takeWhile Char.isDigit
        if fracPart.isEmpty then some (digitsToNat intPart)
        else some ((digitsToNat intPart : ℚ) +
          (digitsToNat fracPart : ℚ) / ((10 : ℚ) ^ fracPart.length))
      | _ => some (digitsToNat intPart)
    else parseAbvChars rest

/-- `parseAbv` on a nullable string. -/
def parseAbv (text : Option String) : Option ℚ :=
  match text with
  | none => none
  | some t => if t = "" then none else parseAbvChars t.toList

/-- `shouldCheckAlcoholContent`: skip for beer (product type or beer-keyword
class/type), skip for wine under 7 percent ABV, otherwise check exactly when
the expected alcohol-content text is non-empty. -/
def shouldCheckAlcoholContent (expected : ExpectedAlcoholLabel) : Bool :=
  let isBeer := decide (expected.productType = some ProductType.beer) ||
    isBeerClassType (some expected.classType.text)
  if isBeer then false
  else
    let isWine := decide (expected.productType = some ProductType.wine) ||
      isWineClassType (some expected.classType.text)
    let abv := parseAbv (expected.alcoholContent.map (·.text))
    if isWine && (match abv with | some v => decide (v < 7) | none => false) then false
    else
      match expected.alcoholContent with
      | some f => !(f.text == "")
      | none => false

/-- `shouldCheckCountryOfOrigin`: imports with non-empty expected country. -/
def shouldCheckCountryOfOrigin (expected : ExpectedAlcoholLabel) : Bool :=
  expected.isImported &&
    (match expected.countryOfOrigin with
     | some f => !(f.text == "")
     | none => false)

/-- `shouldCheckAdditives`: at least one expected additive flag is set. -/
def shouldCheckAdditives (expected : ExpectedAlcoholLabel) : Bool :=
  expected.additivesDetected.fdcYellowNo5 ||
  expected.additivesDetected.cochinealExtract ||
  expected.additivesDetected.carmine ||
  expected.additivesDetected.aspartame ||
  expected.additivesDetected.sulfitesGe10ppm

/-- The three in-scope flags (`getEvaluationFlags`). -/
structure EvaluationFlags where
  includeAlcohol : Bool
  includeCountry : Bool
  includeAdditives : Bool
deriving DecidableEq

/-- `getEvaluationFlags`. -/
def getEvaluationFlags (expected : ExpectedAlcoholLabel) : EvaluationFlags :=
  { includeAlcohol := shouldCheckAlcoholContent expected
    includeCountry := shouldCheckCountryOfOrigin expected
    includeAdditives := shouldCheckAdditives expected }

/-- `applyEvaluationOverrides`: out-of-scope optional fields scored 1. -/
def applyEvaluationOverrides (fields : FieldAccuracy) (flags : EvaluationFlags) :
    FieldAccuracy :=
  { fields with
    alcoholContent := if flags.includeAlcohol then fields.alcoholContent else 1
    countryOfOrigin := if flags.includeCountry then fields.countryOfOrigin else 1
    additivesDisclosed := if flags.includeAdditives then fields.additivesDisclosed else 1 }

/-- `Object.values(fields).every((value) => value === 1)`. -/
def allFieldsOne (f : FieldAccuracy) : Bool :=
  f.brandName == 1 && f.classType == 1 && f.alcoholContent == 1 &&
  f.netContents == 1 && f.governmentWarning == 1 && f.bottlerProducer == 1 &&
  f.countryOfOrigin == 1 && f.additivesDisclosed == 1

/-- `buildDecision`: `passed` is the conjunction of the eight scores. -/
def buildDecision (fields : FieldAccuracy) : AccuracyDecision :=
  { fields := fields, passed := allFieldsOne fields }

/-- `buildDefaultFields`: defaults everywhere, except that out-of-scope
optional fields are forced to 1. -/
def buildDefaultFields (flags : EvaluationFlags) (defaultValue : Nat) :
    FieldAccuracy :=
  { brandName := defaultValue
    classType := defaultValue
    alcoholContent := if flags.includeAlcohol then defaultValue else 1
    netContents := defaultValue
    governmentWarning := defaultValue
    bottlerProducer := defaultValue
    countryOfOrigin := if flags.includeCountry then defaultValue else 1
    additivesDisclosed := if flags.includeAdditives then defaultValue else 1 }

/-! ## Candidate merging (`src/lib/extraction/heuristics.ts` lines 165-262 and
`src/lib/extraction/merger.ts`) -/

/-- The union type `SimpleField | GovernmentWarningField | AdditiveDisclosure
| null` flowing through `getExpectedValue`, `getTextValue` and
`similarityScore`. -/
inductive FieldValue where
  | missing
  | simple (f : SimpleField)
  | gov (f : GovernmentWarningField)
  | additives (a : AdditiveDisclosure)
deriving DecidableEq

/-- A nullable simple field as a `FieldValue`. -/
def FieldValue.ofSimple : Option SimpleField → FieldValue
  | none => .missing
  | some f => .simple f

/-- `value !== null && value !== undefined`. -/
def FieldValue.isPresent : FieldValue → Bool
  | .missing => false
  | _ => true

/-- `getTextValue`: `value?.text ?? ""` (an additive record has no `text`). -/
def getTextValue : FieldValue → String
  | .simple f => f.text
  | .gov f => f.text
  | _ => ""

/-- `candidate.extracted[key]` as a `FieldValue`. -/
def extractedField (l : ExtractedAlcoholLabel) : FieldKey → FieldValue
  | .brandName => .ofSimple l.brandName
  | .classType => .ofSimple l.classType
  | .alcoholContent => .ofSimple l.alcoholContent
  | .netContents => .ofSimple l.netContents
  | .governmentWarning =>
    match l.governmentWarning with
    | some g => .gov g
    | none => .missing
  | .bottlerProducer => .ofSimple l.bottlerProducer
  | .countryOfOrigin => .ofSimple l.countryOfOrigin
  | .additivesDisclosed =>
    match l.additivesDisclosed with
    | some a => .additives a
    | none => .missing

/-- `getExpectedValue`. -/
def getExpectedValue (expected : ExpectedAlcoholLabel) : FieldKey → FieldValue
  | .brandName => .simple expected.brandName
  | .classType => .simple expected.classType
  | .alcoholContent => .ofSimple expected.alcoholContent
  | .netContents => .simple expected.netContents
  | .governmentWarning => .gov expected.governmentWarning
  | .bottlerProducer => .simple expected.bottlerProducer
  | .countryOfOrigin => .ofSimple expected.countryOfOrigin
  | .additivesDisclosed => .additives expected.additivesDetected

/-- Fraction of the five additive booleans on which the two records agree. -/
def additiveMatchRate (expectedAdditives extractedAdditives : AdditiveDisclosure) : ℚ :=
  let matchCount :=
    (if expectedAdditives.fdcYellowNo5 = extractedAdditives.fdcYellowNo5 then 1 else 0) +
    (if expectedAdditives.cochinealExtract = extractedAdditives.cochinealExtract then 1 else 0) +
    (if expectedAdditives.carmine = extractedAdditives.carmine then 1 else 0) +
    (if expectedAdditives.aspartame = extractedAdditives.aspartame then 1 else 0) +
    (if expectedAdditives.sulfitesGe10ppm = extractedAdditives.sulfitesGe10ppm then 1 else 0)
  (matchCount : ℚ) / 5

/-- `similarityScore`: null expected scores 0; the additive key compares the
boolean records; every other key compares the similarity-normalized texts,
scoring 0 when the normalized expected text is empty. -/
def similarityScore (key : FieldKey) (extracted expected : FieldValue) : ℚ :=
  match expected with
  | .missing => 0
  | exp =>
    match key with
    | .additivesDisclosed =>
      match extracted, exp with
      | .additives extractedAdditives, .additives expectedAdditives =>
        additiveMatchRate expectedAdditives extractedAdditives
      | _, _ => 0
    | _ =>
      let expectedText := normalizeForSimilarity (getTextValue exp)
      let extractedText := normalizeForSimilarity (getTextValue extracted)
      if expectedText = "" then 0
      else similarityRatio extractedText expectedText

/-- One entry of the per-field contender array built by `mergeCandidates`. -/
structure Contender where
  index : Nat
  score : Nat
  similarity : ℚ
  hasValue : Bool
deriving DecidableEq

/-- The body of the `reduce` inside `selectContender`: higher similarity
wins, then a present value, then the lower index. -/
def betterOf (best current : Contender) : Contender :=
  if current.similarity ≠ best.similarity then
    if best.similarity < current.similarity then current else best
  else if current.hasValue ≠ best.hasValue then
    if current.hasValue then current else best
  else if current.index < best.index then current else best

/-- The candidate pool of `selectContender`: restricted to score-1 entries
exactly when `requireAccurate` is set. -/
def poolOf (contenders : List Contender) (requireAccurate : Bool) : List Contender :=
  if requireAccurate then contenders.filter (fun c => c.score == 1) else contenders

/-- `selectContender`: `reduce` of `betterOf` over the pool.  JS `reduce`
with no initial value throws on an empty array; that failure is modelled as
`none`. -/
def selectContender (contenders : List Contender) (requireAccurate : Bool) :
    Option Contender :=
  match poolOf contenders requireAccurate with
  | [] => none
  | h :: t => some (t.foldl betterOf h)

/-- `candidate.evaluation?.fields ?? fallbackFields` with the fallback
`buildDefaultFields flags 0`. -/
def candidateFieldsOf (flags : EvaluationFlags) (c : ExtractionCandidate) :
    FieldAccuracy :=
  match c.evaluation with
  | some d => d.fields
  | none => buildDefaultFields flags 0

/-- One contender entry: list position, per-field score, similarity against
the expected value, presence flag. -/
def mkContender (flags : EvaluationFlags) (expectedValue : FieldValue)
    (key : FieldKey) (i : Nat) (c : ExtractionCandidate) : Contender :=
  { index := i
    score := fieldScore (candidateFieldsOf flags c) key
    similarity := similarityScore key (extractedField c.extracted key) expectedValue
    hasValue := (extractedField c.extracted key).isPresent }

/-- The contender array for one field, indexed from `i`. -/
def contendersFrom (flags : EvaluationFlags) (expectedValue : FieldValue)
    (key : FieldKey) : Nat → List ExtractionCandidate → List Contender
  | _, [] => []
  | i, c :: cs =>
    mkContender flags expectedValue key i c ::
      contendersFrom flags expectedValue key (i + 1) cs

/-- The contender array `mergeCandidates` builds for one field key. -/
def contendersFor (candidates : List ExtractionCandidate)
    (expected : ExpectedAlcoholLabel) (key : FieldKey) : List Contender :=
  contendersFrom (getEvaluationFlags expected) (getExpectedValue expected key) key
    0 candidates

/-- `hasAccurate`: some contender scored this field 1. -/
def hasAccurateFor (candidates : List ExtractionCandidate)
    (expected : ExpectedAlcoholLabel) (key : FieldKey) : Bool :=
  (contendersFor candidates expected key).any (fun c => c.score == 1)

/-- The winning candidate for one field: the selected contender mapped back
to the candidate array by its position. -/
def winnerFor (candidates : List ExtractionCandidate)
    (expected : ExpectedAlcoholLabel) (key : FieldKey) : Option ExtractionCandidate :=
  (selectContender (contendersFor candidates expected key)
      (hasAccurateFor candidates expected key)).bind
    (fun best => candidates.get? best.index)

/-- The merged score for one field: 1 exactly when some contender scored 1
(the `forEach` assigns every key, so the `buildDefaultFields` initialization
of `mergedFields` is dead). -/
def mergedScoreFor (candidates : List ExtractionCandidate)
    (expected : ExpectedAlcoholLabel) (key : FieldKey) : Nat :=
  if hasAccurateFor candidates expected key then 1 else 0

/-- The merged per-field scores, as assigned by the `forEach` (which writes
every key, so the `buildDefaultFields` initialization of `mergedFields` in
the source is dead). -/
def mergedFieldsFor (candidates : List ExtractionCandidate)
    (expected : ExpectedAlcoholLabel) : FieldAccuracy :=
  { brandName := mergedScoreFor candidates expected .brandName
    classType := mergedScoreFor candidates expected .classType
    alcoholContent := mergedScoreFor candidates expected .alcoholContent
    netContents := mergedScoreFor candidates expected .netContents
    governmentWarning := mergedScoreFor candidates expected .governmentWarning
    bottlerProducer := mergedScoreFor candidates expected .bottlerProducer
    countryOfOrigin := mergedScoreFor candidates expected .countryOfOrigin
    additivesDisclosed := mergedScoreFor candidates expected .additivesDisclosed }

/-- `mergeCandidates` from `src/lib/extraction/merger.ts` (logging dropped):
per-field best-of-N selection of the label values, merged scores, and the
aggregate decision.  A `none` result models the runtime failure of the empty
`reduce`. -/
def mergeCandidates (candidates : List ExtractionCandidate)
    (expected : ExpectedAlcoholLabel) :
    Option (ExtractedAlcoholLabel × AccuracyDecision) := do
  let wBrand ← winnerFor candidates expected .brandName
  let wClass ← winnerFor candidates expected .classType
  let wAlcohol ← winnerFor candidates expected .alcoholContent
  let wNet ← winnerFor candidates expected .netContents
  let wGov ← winnerFor candidates expected .governmentWarning
  let wBottler ← winnerFor candidates expected .bottlerProducer
  let wCountry ← winnerFor candidates expected .countryOfOrigin
  let wAdditives ← winnerFor candidates expected .additivesDisclosed
  some
    ({ brandName := wBrand.extracted.brandName
       classType := wClass.extracted.classType
       alcoholContent := wAlcohol.extracted.alcoholContent
       netContents := wNet.extracted.netContents
       governmentWarning := wGov.extracted.governmentWarning
       bottlerProducer := wBottler.extracted.bottlerProducer
       countryOfOrigin := wCountry.extracted.countryOfOrigin
       additivesDisclosed := wAdditives.extracted.additivesDisclosed },
     { fields := mergedFieldsFor candidates expected
       passed := allFieldsOne (mergedFieldsFor candidates expected) })

/-! ## Engine (`src/lib/extraction/engine.ts`)

The network suspension points are abstracted: `runEvaluationPass` takes the
parsed scoring response (`output_parsed`, null on schema-parse failure),
`runExtractionPasses` takes the two parallel pass outcomes, and
`callWithModelFallback` takes the per-deployment runner outcome function.
-/

/-- The error shape thrown or returned by engine calls: optional HTTP
status, optional error code/type and the message text. -/
structure CallError where
  status : Option Nat
  code : Option String
  message : String
deriving DecidableEq

/-- `isRateLimitError`: status 429, one of three rate-limit codes, or a
message matching `/rate limit/i`.  The nested `error.{...}` envelope of the
source is modelled flattened into the same three components. -/
def isRateLimitError (e : CallError) : Bool :=
  decide (e.status = some 429) ||
  decide (e.code = some "rate_limit_exceeded") ||
  decide (e.code = some "too_many_requests") ||
  decide (e.code = some "insufficient_quota") ||
  listContainsSub (e.message.toList.map Char.toLower) "rate limit".toList

/-- `RATE_LIMIT_RETRIES`. -/
def RATE_LIMIT_RETRIES : Nat := 4

/-- `RATE_LIMIT_INITIAL_DELAY_MS`. -/
def RATE_LIMIT_INITIAL_DELAY_MS : Nat := 2000

/-- `RATE_LIMIT_MAX_DELAY_MS`. -/
def RATE_LIMIT_MAX_DELAY_MS : Nat := 15000

/-- The terminal capacity error thrown after retry exhaustion. -/
def capacityError : CallError :=
  { status := some 429
    code := none
    message := "All models are at capacity. Please wait and try again." }

/-- Outcome of one pass over the deployment list inside
`callWithModelFallback`: an early `return`, a rethrown non-rate-limit
error, or fall-through with the `sawRateLimit` flag. -/
inductive RoundResult (α : Type) where
  | success (v : α)
  | failure (e : CallError)
  | exhausted (sawRateLimit : Bool)

/-- The `for (const deployment of deployments)` loop body: return on
success, rethrow non-rate-limit errors, remember rate limits and continue. -/
def runRound (runner : String → Except CallError α) :
    List String → RoundResult α
  | [] => .exhausted false
  | d :: ds =>
    match runner d with
    | .ok v => .success v
    | .error e =>
      if isRateLimitError e then
        match runRound runner ds with
        | .exhausted _ => .exhausted true
        | r => r
      else .failure e

/-- The retry loop of `callWithModelFallback`, threading the attempt
counter and the current backoff delay and recording each sleep duration.
Entered with `attempt ≤ RATE_LIMIT_RETRIES`; breaking out of the `while`
surfaces the capacity error. -/
def fallbackLoop (runner : String → Except CallError α) (deployments : List String) :
    Nat → Nat → List Nat → Except CallError α × List Nat
  | attempt, delayMs, sleeps =>
    if _h : attempt ≤ RATE_LIMIT_RETRIES then
      match runRound runner deployments with
      | .success v => (.ok v, sleeps)
      | .failure e => (.error e, sleeps)
      | .exhausted sawRateLimit =>
        if sawRateLimit = false ∨ attempt = RATE_LIMIT_RETRIES then
          (.error capacityError, sleeps)
        else
          fallbackLoop runner deployments (attempt + 1)
            (min (delayMs * 2) RATE_LIMIT_MAX_DELAY_MS) (sleeps ++ [delayMs])
    else (.error capacityError, sleeps)
termination_by attempt _ _ => RATE_LIMIT_RETRIES + 1 - attempt
decreasing_by omega

/-- `callWithModelFallback` (logging dropped): the result together with the
trace of backoff sleeps. -/
def callWithModelFallback (deployments : List String)
    (runner : String → Except CallError α) : Except CallError α × List Nat :=
  fallbackLoop runner deployments 0 RATE_LIMIT_INITIAL_DELAY_MS []

/-- The fatal-error payload `{ ok: false, status, error }` of a failing
step. -/
structure ErrorResult where
  status : Nat
  error : String
deriving DecidableEq

/-- The `forEach` of `runExtractionPasses`: wrap each parsed pass result as
a candidate carrying its attempt position, dropping unparsed passes. -/
def collectCandidates : List (Option ExtractedAlcoholLabel) → List ExtractionCandidate :=
  collectFrom 0
where
  /-- Recursion over the pass results, threading the attempt position. -/
  collectFrom : Nat → List (Option ExtractedAlcoholLabel) → List ExtractionCandidate
  | _, [] => []
  | i, none :: rest => collectFrom (i + 1) rest
  | i, some parsed :: rest =>
    { extracted := parsed, evaluation := none, index := i } :: collectFrom (i + 1) rest

/-- `runExtractionPasses` after the two parallel passes resolved with
`result1` and `result2` (null = schema-parse failure): keep the valid
candidates, and fail with 502 when there are none. -/
def runExtractionPasses (result1 result2 : Option ExtractedAlcoholLabel) :
    Except ErrorResult (List ExtractionCandidate) :=
  let candidates := collectCandidates [result1, result2]
  if candidates.isEmpty then
    .error { status := 502, error := "No label data extracted" }
  else .ok candidates

/-- `runEvaluationPass` after its scoring call resolved with
`outputParsed` (null = schema-parse failure): null propagates, otherwise
the overrides are applied and the decision built. -/
def runEvaluationPass (expected : ExpectedAlcoholLabel)
    (outputParsed : Option FieldAccuracy) : Option AccuracyDecision :=
  match outputParsed with
  | none => none
  | some fields =>
    some (buildDecision (applyEvaluationOverrides fields (getEvaluationFlags expected)))

/-! ## Deterministic comparator (`src/lib/azureBlob.ts`, comparator half) -/

/-- The status glyphs of `VerificationResult`. -/
inductive Status where
  | pass | warn | fail
deriving DecidableEq

structure VerificationResult where
  field : String
  extracted : String
  expected : String
  status : Status
  message : String
deriving DecidableEq

/-- `isSingleCharDifference`: equal strings, or edit distance at most one
behind a cheap length-difference guard. -/
def isSingleCharDifference (a b : String) : Bool :=
  if a = b then true
  else if 1 < ((a.length : ℤ) - (b.length : ℤ)).natAbs then false
  else levenshteinDistance a.toList b.toList ≤ 1

/-- The two canonical TTB warning strings of `src/lib/azureBlob.ts`, already
`normalizeGovWarning`-normalized as in the source. -/
def STANDARD_GOV_WARNINGS : List String :=
  ["GOVERNMENT WARNING: (1) ACCORDING TO THE SURGEON GENERAL, WOMEN SHOULD NOT DRINK ALCOHOLIC BEVERAGES DURING PREGNANCY BECAUSE OF THE RISK OF BIRTH DEFECTS. (2) CONSUMPTION OF ALCOHOLIC BEVERAGES IMPAIRS YOUR ABILITY TO DRIVE A CAR OR OPERATE MACHINERY, AND MAY CAUSE HEALTH PROBLEMS.",
   "GOVERNMENT WARNING: (1) According to the Surgeon General, women should not drink alcoholic beverages during pregnancy because of the risk of birth defects. (2) Consumption of alcoholic beverages impairs your ability to drive a car or operate machinery, and may cause health problems."].map
    normalizeGovWarning

/-- `compareGovernmentWarning` from `src/lib/azureBlob.ts`: pass on
single-edit closeness of the similarity-normalized texts, on containment of
a non-empty normalized expected text, or when both texts are standard
warnings; otherwise fail. -/
def compareGovernmentWarning (extracted : Option GovernmentWarningField)
    (expected : GovernmentWarningField) : VerificationResult :=
  let extractedText := (extracted.map (·.text)).getD ""
  let normalizedExtracted := normalizeGovWarning extractedText
  let normalizedExpected := normalizeGovWarning expected.text
  let looseExtracted := normalizeForSimilarity extractedText
  let looseExpected := normalizeForSimilarity expected.text
  let expectedIsStandard := decide (normalizedExpected ∈ STANDARD_GOV_WARNINGS)
  let extractedIsStandard := decide (normalizedExtracted ∈ STANDARD_GOV_WARNINGS)
  if isSingleCharDifference looseExtracted looseExpected ||
      (decide (0 < looseExpected.length) && stringIncludes looseExtracted looseExpected) then
    { field := "Government Warning", extracted := extractedText,
      expected := expected.text, status := .pass,
      message := "Government warning contains expected wording" }
  else if expectedIsStandard && extractedIsStandard then
    { field := "Government Warning", extracted := extractedText,
      expected := expected.text, status := .pass,
      message := "Government warning matches standard wording" }
  else
    { field := "Government Warning", extracted := extractedText,
      expected := expected.text, status := .fail,
      message := "Government warning does not match" }

/-- `buildEvaluationResult`: skipped for an empty expected text, a warning
row when the AI evaluation is missing, otherwise pass/fail from the
evaluation score of the given key. -/
def buildEvaluationResult (field expectedText extractedText : String)
    (evaluation : Option AccuracyDecision) (key : FieldKey)
    (passMessage failMessage : String) : Option VerificationResult :=
  if expectedText = "" then none
  else
    match evaluation with
    | none =>
      some { field := field, extracted := extractedText, expected := expectedText,
             status := .warn, message := "AI evaluation missing" }
    | some ev =>
      let passed := fieldScore ev.fields key == 1
      some { field := field, extracted := extractedText, expected := expectedText,
             status := if passed then .pass else .fail,
             message := if passed then passMessage else failMessage }

/-- The result rows `compareLabels` accumulates before the warning
downgrade, in push order. -/
def compareLabelsRaw (extracted : ExtractedAlcoholLabel)
    (expected : ExpectedAlcoholLabel) (evaluation : Option AccuracyDecision) :
    List VerificationResult :=
  List.filterMap id
    [ buildEvaluationResult "Brand" expected.brandName.text
        ((extracted.brandName.map (·.text)).getD "") evaluation .brandName
        "Brand matches" "Brand does not match",
      buildEvaluationResult "Class/Type" expected.classType.text
        ((extracted.classType.map (·.text)).getD "") evaluation .classType
        "Class/Type matches" "Class/Type does not match",
      buildEvaluationResult "Net Contents" expected.netContents.text
        ((extracted.netContents.map (·.text)).getD "") evaluation .netContents
        "Net contents match" "Net contents do not match",
      buildEvaluationResult "Bottler/Producer" expected.bottlerProducer.text
        ((extracted.bottlerProducer.map (·.text)).getD "") evaluation .bottlerProducer
        "Bottler/Producer matches" "Bottler/Producer does not match",
      some (compareGovernmentWarning extracted.governmentWarning
        expected.governmentWarning),
      buildEvaluationResult "Alcohol Content"
        ((expected.alcoholContent.map (·.text)).getD "")
        ((extracted.alcoholContent.map (·.text)).getD "") evaluation .alcoholContent
        "ABV matches" "ABV does not match",
      buildEvaluationResult "Country of Origin"
        ((expected.countryOfOrigin.map (·.text)).getD "")
        ((extracted.countryOfOrigin.map (·.text)).getD "") evaluation .countryOfOrigin
        "Country of origin matches" "Country of origin does not match" ]

/-- `results.find` of the Government Warning row followed by the status
mutation: rewrite the first such row to a warning. -/
def setFirstGovWarningWarn : List VerificationResult → List VerificationResult
  | [] => []
  | r :: rs =>
    if r.field = "Government Warning" then { r with status := .warn } :: rs
    else r :: setFirstGovWarningWarn rs

/-- The closing block of `compareLabels`: when the Government Warning row is
the only failure, downgrade it to a warning. -/
def applyGovWarningDowngrade (results : List VerificationResult) :
    List VerificationResult :=
  match results.filter (fun r => decide (r.status = Status.fail)) with
  | [f] =>
    if f.field = "Government Warning" then setFirstGovWarningWarn results
    else results
  | _ => results

/-- `compareLabels` from `src/lib/azureBlob.ts`. -/
def compareLabels (extracted : ExtractedAlcoholLabel)
    (expected : ExpectedAlcoholLabel) (evaluation : Option AccuracyDecision) :
    List VerificationResult :=
  applyGovWarningDowngrade (compareLabelsRaw extracted expected evaluation)

/-- `calculateOverallStatus`: fail dominates, then warn, then pass. -/
def calculateOverallStatus (results : List VerificationResult) : Status :=
  if results.any (fun r => decide (r.status = Status.fail)) then .fail
  else if results.any (fun r => decide (r.status = Status.warn)) then .warn
  else .pass

/-! ## Shared lemmas -/

/-- `allFieldsOne` spelled out as the conjunction of the eight scores. -/
lemma allFieldsOne_eq_true_iff (f : FieldAccuracy) :
    allFieldsOne f = true ↔
      (f.brandName = 1 ∧ f.classType = 1 ∧ f.alcoholContent = 1 ∧
       f.netContents = 1 ∧ f.governmentWarning = 1 ∧ f.bottlerProducer = 1 ∧
       f.countryOfOrigin = 1 ∧ f.additivesDisclosed = 1) := by
  simp [allFieldsOne, and_assoc]

/-- Inversion of a successful merge: each field winner exists, the label is
assembled from the winners, and the decision is the merged scores with their
conjunction. -/
lemma mergeCandidates_some_elim {candidates : List ExtractionCandidate}
    {expected : ExpectedAlcoholLabel} {lbl : ExtractedAlcoholLabel}
    {dec : AccuracyDecision}
    (h : mergeCandidates candidates expected = some (lbl, dec)) :
    (∃ w, winnerFor candidates expected .brandName = some w ∧
      lbl.brandName = w.extracted.brandName) ∧
    (∃ w, winnerFor candidates expected .classType = some w ∧
      lbl.classType = w.extracted.classType) ∧
    (∃ w, winnerFor candidates expected .alcoholContent = some w ∧
      lbl.alcoholContent = w.extracted.alcoholContent) ∧
    (∃ w, winnerFor candidates expected .netContents = some w ∧
      lbl.netContents = w.extracted.netContents) ∧
    (∃ w, winnerFor candidates expected .governmentWarning = some w ∧
      lbl.governmentWarning = w.extracted.governmentWarning) ∧
    (∃ w, winnerFor candidates expected .bottlerProducer = some w ∧
      lbl.bottlerProducer = w.extracted.bottlerProducer) ∧
    (∃ w, winnerFor candidates expected .countryOfOrigin = some w ∧
      lbl.countryOfOrigin = w.extracted.countryOfOrigin) ∧
    (∃ w, winnerFor candidates expected .additivesDisclosed = some w ∧
      lbl.additivesDisclosed = w.extracted.additivesDisclosed) ∧
    dec = { fields := mergedFieldsFor candidates expected
            passed := allFieldsOne (mergedFieldsFor candidates expected) } := by
  have hbind : ∀ {α β : Type} (x : Option α) (g : α → Option β), x >>= g = x.bind g :=
    fun _ _ => rfl
  simp only [mergeCandidates, hbind, Option.bind_eq_some'] at h
  obtain ⟨w1, h1, w2, h2, w3, h3, w4, h4, w5, h5, w6, h6, w7, h7, w8, h8, h⟩ := h
  simp only [Option.some.injEq, Prod.mk.injEq] at h
  obtain ⟨hl, hd⟩ := h
  subst hl
  exact ⟨⟨w1, h1, rfl⟩, ⟨w2, h2, rfl⟩, ⟨w3, h3, rfl⟩, ⟨w4, h4, rfl⟩,
    ⟨w5, h5, rfl⟩, ⟨w6, h6, rfl⟩, ⟨w7, h7, rfl⟩, ⟨w8, h8, rfl⟩, hd.symm⟩

/-- The total preorder that `betterOf` maximizes: `a` is at least as good
as `b` when it has strictly higher similarity, or equal similarity and a
present value against a missing one, or equal similarity, equal presence
and an index at most as large. -/
def goodAs (a b : Contender) : Prop :=
  b.similarity < a.similarity ∨
    (a.similarity = b.similarity ∧
      ((a.hasValue = true ∧ b.hasValue = false) ∨
        (a.hasValue = b.hasValue ∧ a.index ≤ b.index)))

lemma goodAs_refl (a : Contender) : goodAs a a :=
  Or.inr ⟨rfl, Or.inr ⟨rfl, le_refl _⟩⟩

lemma goodAs_trans {a b c : Contender} (hab : goodAs a b) (hbc : goodAs b c) :
    goodAs a c := by
  rcases hab with h1 | ⟨e1, h1⟩ <;> rcases hbc with h2 | ⟨e2, h2⟩
  · exact Or.inl (h2.trans h1)
  · exact Or.inl (e2 ▸ h1)
  · exact Or.inl (lt_of_lt_of_le h2 (le_of_eq e1.symm))
  · refine Or.inr ⟨e1.trans e2, ?_⟩
    rcases h1 with ⟨ha, hb⟩ | ⟨hv1, hi1⟩ <;> rcases h2 with ⟨hb2, hc⟩ | ⟨hv2, hi2⟩
    · exact absurd (hb.symm.trans hb2) (by simp)
    · exact Or.inl ⟨ha, hv2 ▸ hb⟩
    · exact Or.inl ⟨hv1.trans hb2, hc⟩
    · exact Or.inr ⟨hv1.trans hv2, hi1.trans hi2⟩

lemma betterOf_eq_or (a b : Contender) : betterOf a b = a ∨ betterOf a b = b := by
  unfold betterOf
  split_ifs <;> simp

lemma goodAs_betterOf (a b : Contender) :
    goodAs (betterOf a b) a ∧ goodAs (betterOf a b) b := by
  unfold betterOf
  split_ifs with h1 h2 h3 h4 h5
  · exact ⟨Or.inl h2, goodAs_refl b⟩
  · have hba : b.similarity < a.similarity :=
      lt_of_le_of_ne (le_of_not_lt h2) h1
    exact ⟨goodAs_refl a, Or.inl hba⟩
  · have he : a.similarity = b.similarity := by
      by_contra hne
      exact h1 (fun hb => hne hb.symm)
    have hav : a.hasValue = false := by
      cases hv : a.hasValue <;> cases hv2 : b.hasValue <;> simp_all
    exact ⟨Or.inr ⟨he.symm, Or.inl ⟨h4, hav⟩⟩, goodAs_refl b⟩
  · have he : a.similarity = b.similarity := by
      by_contra hne
      exact h1 (fun hb => hne hb.symm)
    have hbv : b.hasValue = false := by
      cases hv : b.hasValue <;> simp_all
    have hav : a.hasValue = true := by
      cases hv : a.hasValue <;> simp_all
    exact ⟨goodAs_refl a, Or.inr ⟨he, Or.inl ⟨hav, hbv⟩⟩⟩
  · have he : a.similarity = b.similarity := by
      by_contra hne
      exact h1 (fun hb => hne hb.symm)
    have hv : b.hasValue = a.hasValue := by
      by_contra hne
      exact h3 hne
    exact ⟨Or.inr ⟨he.symm, Or.inr ⟨hv, le_of_lt h5⟩⟩, goodAs_refl b⟩
  · have he : a.similarity = b.similarity := by
      by_contra hne
      exact h1 (fun hb => hne hb.symm)
    have hv : b.hasValue = a.hasValue := by
      by_contra hne
      exact h3 hne
    exact ⟨goodAs_refl a, Or.inr ⟨he, Or.inr ⟨hv.symm, le_of_not_lt h5⟩⟩⟩

lemma foldl_betterOf_mem : ∀ (t : List Contender) (h : Contender),
    t.foldl betterOf h ∈ h :: t := by
  intro t
  induction t with
  | nil => simp
  | cons x t ih =>
    intro h
    rw [List.foldl_cons]
    have hmem := ih (betterOf h x)
    rcases List.mem_cons.mp hmem with hh | ht
    · rw [hh]
      rcases betterOf_eq_or h x with he | he <;> rw [he]
      · exact List.mem_cons_self _ _
      · exact List.mem_cons_of_mem _ (List.mem_cons_self _ _)
    · exact List.mem_cons_of_mem _ (List.mem_cons_of_mem _ ht)

lemma foldl_betterOf_goodAs : ∀ (t : List Contender) (h : Contender),
    ∀ c ∈ h :: t, goodAs (t.foldl betterOf h) c := by
  intro t
  induction t with
  | nil =>
    intro h c hc
    rw [List.mem_singleton.mp hc]
    exact goodAs_refl _
  | cons x t ih =>
    intro h c hc
    rw [List.foldl_cons]
    have base := ih (betterOf h x)
    rcases List.mem_cons.mp hc with hh | hc2
    · rw [hh]
      exact goodAs_trans (base _ (List.mem_cons_self _ _)) (goodAs_betterOf h x).1
    · rcases List.mem_cons.mp hc2 with hx | ht
      · rw [hx]
        exact goodAs_trans (base _ (List.mem_cons_self _ _)) (goodAs_betterOf h x).2
      · exact base c (List.mem_cons_of_mem _ ht)

/-- `selectContender` on a non-empty pool returns a pool member that is at
least as good as every pool member. -/
lemma selectContender_spec (cts : List Contender) (req : Bool)
    (hne : poolOf cts req ≠ []) :
    ∃ w, selectContender cts req = some w ∧ w ∈ poolOf cts req ∧
      ∀ c ∈ poolOf cts req, goodAs w c := by
  rcases hp : poolOf cts req with _ | ⟨h, t⟩
  · exact absurd hp hne
  · refine ⟨t.foldl betterOf h, ?_, ?_, ?_⟩
    · simp [selectContender, hp]
    · exact foldl_betterOf_mem t h
    · exact foldl_betterOf_goodAs t h

/-- Characterization of one per-field contender array entry: its index
points back into the candidate slice it was built from. -/
lemma mem_contendersFrom (flags : EvaluationFlags) (ev : FieldValue) (key : FieldKey) :
    ∀ (i : Nat) (cs : List ExtractionCandidate) (c : Contender),
      c ∈ contendersFrom flags ev key i cs →
      i ≤ c.index ∧ c.index - i < cs.length ∧
        ∃ cand, cs.get? (c.index - i) = some cand ∧
          c = mkContender flags ev key c.index cand := by
  intro i cs
  induction cs generalizing i with
  | nil => simp [contendersFrom]
  | cons c0 cs ih =>
    intro c hc
    rcases List.mem_cons.mp hc with rfl | hc2
    · exact ⟨le_refl _, by simp [mkContender], c0, by simp [mkContender], rfl⟩
    · obtain ⟨hle, hlt, cand, hget, hc⟩ := ih (i + 1) c hc2
      have hstep : c.index - i = (c.index - (i + 1)) + 1 := by omega
      refine ⟨by omega, by simp; omega, cand, ?_, hc⟩
      rw [hstep]
      simpa using hget

lemma contendersFrom_length (flags : EvaluationFlags) (ev : FieldValue)
    (key : FieldKey) :
    ∀ (i : Nat) (cs : List ExtractionCandidate),
      (contendersFrom flags ev key i cs).length = cs.length := by
  intro i cs
  induction cs generalizing i with
  | nil => rfl
  | cons c0 cs ih => simp [contendersFrom, ih]

/-- Each candidate contributes one contender, built at its position. -/
lemma contendersFrom_forall (flags : EvaluationFlags) (ev : FieldValue)
    (key : FieldKey) :
    ∀ (i : Nat) (cs : List ExtractionCandidate), ∀ cand ∈ cs,
      ∃ j, mkContender flags ev key j cand ∈ contendersFrom flags ev key i cs := by
  intro i cs
  induction cs generalizing i with
  | nil => simp
  | cons c0 cs ih =>
    intro cand hcand
    rcases List.mem_cons.mp hcand with rfl | hc2
    · exact ⟨i, List.mem_cons_self _ _⟩
    · obtain ⟨j, hj⟩ := ih (i + 1) cand hc2
      exact ⟨j, List.mem_cons_of_mem _ hj⟩

/-- The per-field pool is never empty for a non-empty candidate list,
because the score-1 restriction is only applied when a score-1 contender
exists. -/
lemma pool_ne_nil (candidates : List ExtractionCandidate)
    (expected : ExpectedAlcoholLabel) (key : FieldKey) (hne : candidates ≠ []) :
    poolOf (contendersFor candidates expected key)
      (hasAccurateFor candidates expected key) ≠ [] := by
  have hlen : (contendersFor candidates expected key).length = candidates.length :=
    contendersFrom_length _ _ _ 0 candidates
  have hcts : contendersFor candidates expected key ≠ [] := by
    intro h0
    apply hne
    have := hlen.symm.trans (congrArg List.length h0)
    exact List.eq_nil_of_length_eq_zero this
  cases hacc : hasAccurateFor candidates expected key with
  | false => simpa [poolOf] using hcts
  | true =>
    obtain ⟨c, hc, hsc⟩ := List.any_eq_true.mp hacc
    have : c ∈ poolOf (contendersFor candidates expected key) true :=
      List.mem_filter.mpr ⟨hc, hsc⟩
    intro h0
    rw [h0] at this
    exact absurd this (List.not_mem_nil c)

/-- Winner extraction: for a non-empty candidate list, `selectContender`
succeeds and its index points at a real candidate, which `winnerFor`
returns. -/
lemma winnerFor_eq_some (candidates : List ExtractionCandidate)
    (expected : ExpectedAlcoholLabel) (key : FieldKey) (hne : candidates ≠ []) :
    ∃ w cand, selectContender (contendersFor candidates expected key)
        (hasAccurateFor candidates expected key) = some w ∧
      candidates.get? w.index = some cand ∧
      winnerFor candidates expected key = some cand := by
  obtain ⟨w, hsel, hmem, -⟩ :=
    selectContender_spec (contendersFor candidates expected key)
      (hasAccurateFor candidates expected key)
      (pool_ne_nil candidates expected key hne)
  have hw : w ∈ contendersFor candidates expected key := by
    revert hmem
    unfold poolOf
    split_ifs
    · exact fun hmem => List.mem_of_mem_filter hmem
    · exact id
  obtain ⟨-, -, cand, hget, -⟩ := mem_contendersFrom _ _ _ 0 candidates w hw
  simp only [Nat.sub_zero] at hget
  refine ⟨w, cand, hsel, hget, ?_⟩
  unfold winnerFor
  rw [hsel]
  simpa using hget

/-- A winner is a member of the candidate list. -/
lemma winnerFor_mem {candidates : List ExtractionCandidate}
    {expected : ExpectedAlcoholLabel} {key : FieldKey} {w : ExtractionCandidate}
    (h : winnerFor candidates expected key = some w) : w ∈ candidates := by
  unfold winnerFor at h
  rw [Option.bind_eq_some'] at h
  obtain ⟨b, -, hg⟩ := h
  exact List.get?_mem hg

/-- A non-empty candidate list always merges successfully. -/
lemma mergeCandidates_isSome (candidates : List ExtractionCandidate)
    (expected : ExpectedAlcoholLabel) (hne : candidates ≠ []) :
    (mergeCandidates candidates expected).isSome = true := by
  obtain ⟨w1, c1, -, -, h1⟩ := winnerFor_eq_some candidates expected .brandName hne
  obtain ⟨w2, c2, -, -, h2⟩ := winnerFor_eq_some candidates expected .classType hne
  obtain ⟨w3, c3, -, -, h3⟩ := winnerFor_eq_some candidates expected .alcoholContent hne
  obtain ⟨w4, c4, -, -, h4⟩ := winnerFor_eq_some candidates expected .netContents hne
  obtain ⟨w5, c5, -, -, h5⟩ := winnerFor_eq_some candidates expected .governmentWarning hne
  obtain ⟨w6, c6, -, -, h6⟩ := winnerFor_eq_some candidates expected .bottlerProducer hne
  obtain ⟨w7, c7, -, -, h7⟩ := winnerFor_eq_some candidates expected .countryOfOrigin hne
  obtain ⟨w8, c8, -, -, h8⟩ := winnerFor_eq_some candidates expected .additivesDisclosed hne
  simp [mergeCandidates, h1, h2, h3, h4, h5, h6, h7, h8]

/-- Strictly increasing attempt indices turn positional order into attempt
order. -/
lemma pairwise_index_mono {l : List ExtractionCandidate}
    (hp : List.Pairwise (fun a b => a.index < b.index) l) {i j : Nat}
    (hij : i ≤ j) {ci cj : ExtractionCandidate}
    (hi : l.get? i = some ci) (hj : l.get? j = some cj) :
    ci.index ≤ cj.index := by
  rcases Nat.lt_or_ge i j with hlt | hge
  · have hi' := List.get?_eq_some.mp hi
    have hj' := List.get?_eq_some.mp hj
    obtain ⟨hilen, hig⟩ := hi'
    obtain ⟨hjlen, hjg⟩ := hj'
    have := (List.pairwise_iff_get.mp hp) ⟨i, hilen⟩ ⟨j, hjlen⟩ hlt
    rw [hig, hjg] at this
    exact le_of_lt this
  · have heq : i = j := le_antisymm hij hge
    subst heq
    rw [hi] at hj
    injection hj with hj
    rw [hj]

/-! ## Demo values used by the witnesses -/

/-- No additives. -/
def noAdditives : AdditiveDisclosure :=
  { fdcYellowNo5 := false, cochinealExtract := false, carmine := false,
    aspartame := false, sulfitesGe10ppm := false }

/-- A beer reference record. -/
def demoBeerExpected : ExpectedAlcoholLabel :=
  { productType := some ProductType.beer
    brandName := ⟨"Bock"⟩
    classType := ⟨"Ale"⟩
    alcoholContent := some ⟨"5%"⟩
    netContents := ⟨"12 OZ"⟩
    governmentWarning := ⟨"GW", true, true⟩
    bottlerProducer := ⟨"Brew Co"⟩
    countryOfOrigin := none
    ageYears := none
    isImported := false
    beerHasAddedFlavorsWithAlcohol := false
    additivesDetected := noAdditives }

/-- An all-zero score record. -/
def zeroFields : FieldAccuracy :=
  { brandName := 0, classType := 0, alcoholContent := 0, netContents := 0,
    governmentWarning := 0, bottlerProducer := 0, countryOfOrigin := 0,
    additivesDisclosed := 0 }

/-- A fully null extraction. -/
def emptyExtraction : ExtractedAlcoholLabel :=
  { brandName := none, classType := none, alcoholContent := none,
    netContents := none, governmentWarning := none, bottlerProducer := none,
    countryOfOrigin := none, additivesDisclosed := none }

/-- A small extraction matching `demoBeerExpected` on the brand. -/
def demoExtraction : ExtractedAlcoholLabel :=
  { emptyExtraction with brandName := some ⟨"Bock"⟩ }

/-- A single unevaluated candidate. -/
def demoCandidates : List ExtractionCandidate :=
  [{ extracted := demoExtraction, evaluation := none, index := 0 }]

/-- The merged result on the demo inputs (the fallback is never taken). -/
def demoMergedPair : ExtractedAlcoholLabel × AccuracyDecision :=
  (mergeCandidates demoCandidates demoBeerExpected).getD
    (emptyExtraction, buildDecision zeroFields)

/-! ## Claims -/

/-- C4: every `AccuracyDecision` produced by `buildDecision` and every
merged decision produced by `mergeCandidates` satisfies: `passed` is true
exactly when all eight field scores equal 1; it is never set independently
of the field scores. -/
theorem passed_iff_all_fields_one
    (f : FieldAccuracy) (candidates : List ExtractionCandidate)
    (expected : ExpectedAlcoholLabel) (lbl : ExtractedAlcoholLabel)
    (dec : AccuracyDecision)
    (hmerge : mergeCandidates candidates expected = some (lbl, dec)) :
    ((buildDecision f).passed = true ↔
      (f.brandName = 1 ∧ f.classType = 1 ∧ f.alcoholContent = 1 ∧
       f.netContents = 1 ∧ f.governmentWarning = 1 ∧ f.bottlerProducer = 1 ∧
       f.countryOfOrigin = 1 ∧ f.additivesDisclosed = 1)) ∧
    (dec.passed = true ↔
      (dec.fields.brandName = 1 ∧ dec.fields.classType = 1 ∧
       dec.fields.alcoholContent = 1 ∧ dec.fields.netContents = 1 ∧
       dec.fields.governmentWarning = 1 ∧ dec.fields.bottlerProducer = 1 ∧
       dec.fields.countryOfOrigin = 1 ∧ dec.fields.additivesDisclosed = 1)) := by
  constructor
  · simpa [buildDecision] using allFieldsOne_eq_true_iff f
  · obtain ⟨-, -, -, -, -, -, -, -, hd⟩ := mergeCandidates_some_elim hmerge
    subst hd
    simpa using allFieldsOne_eq_true_iff (mergedFieldsFor candidates expected)

/-- C5: the evaluator forces each out-of-scope optional score to 1 before
computing `passed` as the conjunction of the eight scores, and a scoring
response that fails schema parsing yields a null evaluation rather than an
error. -/
theorem runEvaluationPass_overrides (expected : ExpectedAlcoholLabel)
    (f : FieldAccuracy) (d : AccuracyDecision)
    (h : runEvaluationPass expected (some f) = some d) :
    runEvaluationPass expected none = none ∧
    (shouldCheckAlcoholContent expected = false → d.fields.alcoholContent = 1) ∧
    (shouldCheckCountryOfOrigin expected = false → d.fields.countryOfOrigin = 1) ∧
    (shouldCheckAdditives expected = false → d.fields.additivesDisclosed = 1) ∧
    (d.passed = true ↔
      (d.fields.brandName = 1 ∧ d.fields.classType = 1 ∧
       d.fields.alcoholContent = 1 ∧ d.fields.netContents = 1 ∧
       d.fields.governmentWarning = 1 ∧ d.fields.bottlerProducer = 1 ∧
       d.fields.countryOfOrigin = 1 ∧ d.fields.additivesDisclosed = 1)) := by
  have hd : d = buildDecision (applyEvaluationOverrides f (getEvaluationFlags expected)) := by
    simpa [runEvaluationPass] using h.symm
  subst hd
  refine ⟨rfl, ?_, ?_, ?_, ?_⟩
  · intro h0
    simp [buildDecision, applyEvaluationOverrides, getEvaluationFlags, h0]
  · intro h0
    simp [buildDecision, applyEvaluationOverrides, getEvaluationFlags, h0]
  · intro h0
    simp [buildDecision, applyEvaluationOverrides, getEvaluationFlags, h0]
  · simpa [buildDecision]
      using allFieldsOne_eq_true_iff (applyEvaluationOverrides f (getEvaluationFlags expected))

/-- Witness for C5 at a beer record with an all-zero model response. -/
theorem runEvaluationPass_overrides_witness :
    shouldCheckAlcoholContent demoBeerExpected = false ∧
    (buildDecision (applyEvaluationOverrides zeroFields
      (getEvaluationFlags demoBeerExpected))).fields.alcoholContent = 1 :=
  ⟨by decide,
    (runEvaluationPass_overrides demoBeerExpected zeroFields _ rfl).2.1 (by decide)⟩

/-- C7: an extraction pass whose response fails schema parsing is silently
dropped from the candidate list (no retry, no exception), the surviving
candidates carry their attempt positions with null evaluations, and zero
valid candidates produce the fatal 502 error "No label data extracted". -/
theorem runExtractionPasses_spec (result1 result2 : Option ExtractedAlcoholLabel) :
    (∀ c ∈ collectCandidates [result1, result2],
      [result1, result2].get? c.index = some (some c.extracted) ∧
        c.evaluation = none) ∧
    (∀ i l, [result1, result2].get? i = some (some l) →
      ∃ c ∈ collectCandidates [result1, result2], c.index = i ∧ c.extracted = l) ∧
    (result1 = none → result2 = none →
      runExtractionPasses result1 result2 =
        .error { status := 502, error := "No label data extracted" }) ∧
    (result1 ≠ none ∨ result2 ≠ none →
      runExtractionPasses result1 result2 =
        .ok (collectCandidates [result1, result2]) ∧
        collectCandidates [result1, result2] ≠ []) := by
  rcases result1 with _ | a <;> rcases result2 with _ | b <;>
    refine ⟨?_, ?_, ?_, ?_⟩ <;>
    simp [collectCandidates, collectCandidates.collectFrom, runExtractionPasses] <;>
    intro i l h <;>
    rcases i with _ | _ | i <;> simp_all

/-- Witness for C7: first pass unparsable, second pass parsed. -/
theorem runExtractionPasses_spec_witness :
    runExtractionPasses none (some demoExtraction) =
      .ok (collectCandidates [none, some demoExtraction]) ∧
    collectCandidates [none, some demoExtraction] ≠ [] :=
  (runExtractionPasses_spec none (some demoExtraction)).2.2.2 (Or.inr (by simp))

/-- A runner that is rate-limited on every deployment makes one pass over a
non-empty deployment list fall through with the rate-limit flag set. -/
lemma runRound_all_rate_limited {α : Type} (runner : String → Except CallError α)
    (deployments : List String) (hne : deployments ≠ [])
    (h : ∀ d ∈ deployments, ∃ e, runner d = .error e ∧ isRateLimitError e = true) :
    runRound runner deployments = .exhausted true := by
  induction deployments with
  | nil => exact absurd rfl hne
  | cons d ds ih =>
    obtain ⟨e, he, hrl⟩ := h d (List.mem_cons_self d ds)
    rcases ds with _ | ⟨d2, ds⟩
    · simp [runRound, he, hrl]
    · have hrest := ih (by simp) (fun d' hd' => h d' (List.mem_cons_of_mem d hd'))
      have expand : runRound runner (d :: d2 :: ds) =
          (match runner d with
           | .ok v => RoundResult.success v
           | .error e =>
             if isRateLimitError e then
               match runRound runner (d2 :: ds) with
               | .exhausted _ => .exhausted true
               | r => r
             else .failure e) := rfl
      rw [expand, he, hrest]
      simp [hrl]

/-- C6: when every model in a non-empty fallback list rejects with a
rate-limit error on every round, `callWithModelFallback` terminates after
exactly the retry ceiling of backoff sleeps — 2000 ms doubling up to the
15000 ms cap — and surfaces the fatal capacity error with HTTP status 429
instead of retrying forever. -/
theorem callWithModelFallback_capacity {α : Type}
    (deployments : List String) (runner : String → Except CallError α)
    (hne : deployments ≠ [])
    (h : ∀ d ∈ deployments, ∃ e, runner d = .error e ∧ isRateLimitError e = true) :
    callWithModelFallback deployments runner =
      (.error capacityError, [2000, 4000, 8000, 15000]) ∧
    capacityError.status = some 429 ∧
    (∀ delayMs ∈ [2000, 4000, 8000, 15000], delayMs ≤ RATE_LIMIT_MAX_DELAY_MS) := by
  have hr := runRound_all_rate_limited runner deployments hne h
  refine ⟨?_, rfl, by decide⟩
  have stepLt : ∀ attempt delayMs sleeps, attempt < RATE_LIMIT_RETRIES →
      fallbackLoop runner deployments attempt delayMs sleeps =
        fallbackLoop runner deployments (attempt + 1)
          (min (delayMs * 2) RATE_LIMIT_MAX_DELAY_MS) (sleeps ++ [delayMs]) := by
    intro attempt delayMs sleeps hlt
    rw [fallbackLoop]
    simp [Nat.le_of_lt hlt, hr, Nat.ne_of_lt hlt]
  have stepEq : ∀ delayMs sleeps,
      fallbackLoop runner deployments RATE_LIMIT_RETRIES delayMs sleeps =
        (.error capacityError, sleeps) := by
    intro delayMs sleeps
    rw [fallbackLoop]
    simp [hr]
  have e1 : callWithModelFallback deployments runner =
      fallbackLoop runner deployments 1 4000 [2000] := by
    rw [callWithModelFallback, stepLt 0 RATE_LIMIT_INITIAL_DELAY_MS [] (by decide)]
    rfl
  have e2 : fallbackLoop runner deployments 1 4000 [2000] =
      fallbackLoop runner deployments 2 8000 [2000, 4000] := by
    rw [stepLt 1 4000 [2000] (by decide)]
    rfl
  have e3 : fallbackLoop runner deployments 2 8000 [2000, 4000] =
      fallbackLoop runner deployments 3 15000 [2000, 4000, 8000] := by
    rw [stepLt 2 8000 [2000, 4000] (by decide)]
    rfl
  have e4 : fallbackLoop runner deployments 3 15000 [2000, 4000, 8000] =
      fallbackLoop runner deployments 4 15000 [2000, 4000, 8000, 15000] := by
    rw [stepLt 3 15000 [2000, 4000, 8000] (by decide)]
    rfl
  have e5 : fallbackLoop runner deployments 4 15000 [2000, 4000, 8000, 15000] =
      (.error capacityError, [2000, 4000, 8000, 15000]) :=
    stepEq 15000 [2000, 4000, 8000, 15000]
  rw [e1, e2, e3, e4, e5]

/-- Witness for C4 on a one-candidate merge. -/
theorem passed_iff_all_fields_one_witness :
    ((buildDecision zeroFields).passed = true ↔
      (zeroFields.brandName = 1 ∧ zeroFields.classType = 1 ∧
       zeroFields.alcoholContent = 1 ∧ zeroFields.netContents = 1 ∧
       zeroFields.governmentWarning = 1 ∧ zeroFields.bottlerProducer = 1 ∧
       zeroFields.countryOfOrigin = 1 ∧ zeroFields.additivesDisclosed = 1)) ∧
    (demoMergedPair.2.passed = true ↔
      (demoMergedPair.2.fields.brandName = 1 ∧ demoMergedPair.2.fields.classType = 1 ∧
       demoMergedPair.2.fields.alcoholContent = 1 ∧ demoMergedPair.2.fields.netContents = 1 ∧
       demoMergedPair.2.fields.governmentWarning = 1 ∧
       demoMergedPair.2.fields.bottlerProducer = 1 ∧
       demoMergedPair.2.fields.countryOfOrigin = 1 ∧
       demoMergedPair.2.fields.additivesDisclosed = 1)) :=
  passed_iff_all_fields_one zeroFields demoCandidates demoBeerExpected
    demoMergedPair.1 demoMergedPair.2 (by decide)

/-- C1: per field, the merger restricts the pool to score-1 contenders
exactly when one exists, and the selected winner maximizes similarity, then
presence of a value, then minimality of the attempt index; for candidate
lists in attempt order the positional tie-break is the attempt-index
tie-break, so selection is deterministic. -/
theorem mergeCandidates_selects_best
    (candidates : List ExtractionCandidate) (expected : ExpectedAlcoholLabel)
    (key : FieldKey) (hne : candidates ≠ [])
    (hmono : List.Pairwise (fun a b => a.index < b.index) candidates) :
    ∃ w, selectContender (contendersFor candidates expected key)
        (hasAccurateFor candidates expected key) = some w ∧
      w ∈ poolOf (contendersFor candidates expected key)
        (hasAccurateFor candidates expected key) ∧
      (hasAccurateFor candidates expected key = true →
        poolOf (contendersFor candidates expected key) true =
          (contendersFor candidates expected key).filter (fun c => c.score == 1) ∧
        w.score = 1) ∧
      (hasAccurateFor candidates expected key = false →
        poolOf (contendersFor candidates expected key) false =
          contendersFor candidates expected key) ∧
      (∀ c ∈ poolOf (contendersFor candidates expected key)
          (hasAccurateFor candidates expected key),
        c.similarity ≤ w.similarity) ∧
      (∀ c ∈ poolOf (contendersFor candidates expected key)
          (hasAccurateFor candidates expected key),
        c.similarity = w.similarity → c.hasValue = true → w.hasValue = true) ∧
      (∀ c ∈ poolOf (contendersFor candidates expected key)
          (hasAccurateFor candidates expected key),
        c.similarity = w.similarity → c.hasValue = w.hasValue →
          w.index ≤ c.index) ∧
      ∃ cw, candidates.get? w.index = some cw ∧
        winnerFor candidates expected key = some cw ∧
        ∀ c ∈ poolOf (contendersFor candidates expected key)
            (hasAccurateFor candidates expected key),
          c.similarity = w.similarity → c.hasValue = w.hasValue →
            ∀ cc, candidates.get? c.index = some cc → cw.index ≤ cc.index := by
  obtain ⟨w, hsel, hmem, hgood⟩ :=
    selectContender_spec (contendersFor candidates expected key)
      (hasAccurateFor candidates expected key)
      (pool_ne_nil candidates expected key hne)
  have hindex : ∀ c ∈ poolOf (contendersFor candidates expected key)
      (hasAccurateFor candidates expected key),
      c.similarity = w.similarity → c.hasValue = w.hasValue → w.index ≤ c.index := by
    intro c hc heq hcveq
    rcases hgood c hc with hlt | ⟨heq2, hrest⟩
    · rw [heq] at hlt
      exact absurd hlt (lt_irrefl _)
    · rcases hrest with ⟨hw, hc0⟩ | ⟨hveq, hidx⟩
      · exact absurd (hc0.symm.trans (hcveq.trans hw)) (by simp)
      · exact hidx
  refine ⟨w, hsel, hmem, ?_, ?_, ?_, ?_, hindex, ?_⟩
  · intro hacc
    refine ⟨rfl, ?_⟩
    rw [hacc] at hmem
    have hmem2 := List.mem_filter.mp hmem
    simpa using hmem2.2
  · intro _
    rfl
  · intro c hc
    rcases hgood c hc with hlt | ⟨heq, -⟩
    · exact le_of_lt hlt
    · exact le_of_eq heq.symm
  · intro c hc heq hcv
    rcases hgood c hc with hlt | ⟨heq2, hrest⟩
    · rw [heq] at hlt
      exact absurd hlt (lt_irrefl _)
    · rcases hrest with ⟨hw, hc0⟩ | ⟨hveq, -⟩
      · exact hw
      · exact hveq.trans hcv
  · obtain ⟨w', cand, hsel', hget, hwin⟩ := winnerFor_eq_some candidates expected key hne
    rw [hsel] at hsel'
    injection hsel' with hw'
    subst hw'
    refine ⟨cand, hget, hwin, ?_⟩
    intro c hc heq hcveq cc hcc
    exact pairwise_index_mono hmono (hindex c hc heq hcveq) hget hcc

/-- Witness for C1 at the brand field of the demo merge. -/
theorem mergeCandidates_selects_best_witness :
    ∃ w, selectContender (contendersFor demoCandidates demoBeerExpected .brandName)
        (hasAccurateFor demoCandidates demoBeerExpected .brandName) = some w ∧
      w ∈ poolOf (contendersFor demoCandidates demoBeerExpected .brandName)
        (hasAccurateFor demoCandidates demoBeerExpected .brandName) ∧
      (hasAccurateFor demoCandidates demoBeerExpected .brandName = true →
        poolOf (contendersFor demoCandidates demoBeerExpected .brandName) true =
          (contendersFor demoCandidates demoBeerExpected .brandName).filter
            (fun c => c.score == 1) ∧
        w.score = 1) ∧
      (hasAccurateFor demoCandidates demoBeerExpected .brandName = false →
        poolOf (contendersFor demoCandidates demoBeerExpected .brandName) false =
          contendersFor demoCandidates demoBeerExpected .brandName) ∧
      (∀ c ∈ poolOf (contendersFor demoCandidates demoBeerExpected .brandName)
          (hasAccurateFor demoCandidates demoBeerExpected .brandName),
        c.similarity ≤ w.similarity) ∧
      (∀ c ∈ poolOf (contendersFor demoCandidates demoBeerExpected .brandName)
          (hasAccurateFor demoCandidates demoBeerExpected .brandName),
        c.similarity = w.similarity → c.hasValue = true → w.hasValue = true) ∧
      (∀ c ∈ poolOf (contendersFor demoCandidates demoBeerExpected .brandName)
          (hasAccurateFor demoCandidates demoBeerExpected .brandName),
        c.similarity = w.similarity → c.hasValue = w.hasValue →
          w.index ≤ c.index) ∧
      ∃ cw, demoCandidates.get? w.index = some cw ∧
        winnerFor demoCandidates demoBeerExpected .brandName = some cw ∧
        ∀ c ∈ poolOf (contendersFor demoCandidates demoBeerExpected .brandName)
            (hasAccurateFor demoCandidates demoBeerExpected .brandName),
          c.similarity = w.similarity → c.hasValue = w.hasValue →
            ∀ cc, demoCandidates.get? c.index = some cc → cw.index ≤ cc.index :=
  mergeCandidates_selects_best demoCandidates demoBeerExpected .brandName
    (by simp [demoCandidates]) (by simp [demoCandidates])

/-- C2: every field of the merged label is the raw extracted value of some
input candidate; merging never fabricates a value. -/
theorem mergeCandidates_no_fabrication
    (candidates : List ExtractionCandidate) (expected : ExpectedAlcoholLabel)
    (lbl : ExtractedAlcoholLabel) (dec : AccuracyDecision)
    (hmerge : mergeCandidates candidates expected = some (lbl, dec)) :
    (∃ c ∈ candidates, lbl.brandName = c.extracted.brandName) ∧
    (∃ c ∈ candidates, lbl.classType = c.extracted.classType) ∧
    (∃ c ∈ candidates, lbl.alcoholContent = c.extracted.alcoholContent) ∧
    (∃ c ∈ candidates, lbl.netContents = c.extracted.netContents) ∧
    (∃ c ∈ candidates, lbl.governmentWarning = c.extracted.governmentWarning) ∧
    (∃ c ∈ candidates, lbl.bottlerProducer = c.extracted.bottlerProducer) ∧
    (∃ c ∈ candidates, lbl.countryOfOrigin = c.extracted.countryOfOrigin) ∧
    (∃ c ∈ candidates, lbl.additivesDisclosed = c.extracted.additivesDisclosed) := by
  obtain ⟨⟨w1, hw1, he1⟩, ⟨w2, hw2, he2⟩, ⟨w3, hw3, he3⟩, ⟨w4, hw4, he4⟩,
    ⟨w5, hw5, he5⟩, ⟨w6, hw6, he6⟩, ⟨w7, hw7, he7⟩, ⟨w8, hw8, he8⟩, -⟩ :=
    mergeCandidates_some_elim hmerge
  exact ⟨⟨w1, winnerFor_mem hw1, he1⟩, ⟨w2, winnerFor_mem hw2, he2⟩,
    ⟨w3, winnerFor_mem hw3, he3⟩, ⟨w4, winnerFor_mem hw4, he4⟩,
    ⟨w5, winnerFor_mem hw5, he5⟩, ⟨w6, winnerFor_mem hw6, he6⟩,
    ⟨w7, winnerFor_mem hw7, he7⟩, ⟨w8, winnerFor_mem hw8, he8⟩⟩

/-- Witness for C2 on the demo merge. -/
theorem mergeCandidates_no_fabrication_witness :
    (∃ c ∈ demoCandidates, demoMergedPair.1.brandName = c.extracted.brandName) ∧
    (∃ c ∈ demoCandidates, demoMergedPair.1.classType = c.extracted.classType) ∧
    (∃ c ∈ demoCandidates, demoMergedPair.1.alcoholContent = c.extracted.alcoholContent) ∧
    (∃ c ∈ demoCandidates, demoMergedPair.1.netContents = c.extracted.netContents) ∧
    (∃ c ∈ demoCandidates, demoMergedPair.1.governmentWarning = c.extracted.governmentWarning) ∧
    (∃ c ∈ demoCandidates, demoMergedPair.1.bottlerProducer = c.extracted.bottlerProducer) ∧
    (∃ c ∈ demoCandidates, demoMergedPair.1.countryOfOrigin = c.extracted.countryOfOrigin) ∧
    (∃ c ∈ demoCandidates, demoMergedPair.1.additivesDisclosed = c.extracted.additivesDisclosed) :=
  mergeCandidates_no_fabrication demoCandidates demoBeerExpected
    demoMergedPair.1 demoMergedPair.2 (by decide)

/-- C3: for a beer reference record the alcohol-content check is off, and a
merge of any non-empty candidate list whose evaluations came from the
evaluator (or are null) scores the merged alcohol content 1 regardless of
the extracted values. -/
theorem beer_merged_alcohol_one (expected : ExpectedAlcoholLabel)
    (candidates : List ExtractionCandidate)
    (hbeer : expected.productType = some ProductType.beer ∨
      isBeerClassType (some expected.classType.text) = true)
    (hne : candidates ≠ [])
    (heval : ∀ c ∈ candidates, c.evaluation = none ∨
      ∃ f, c.evaluation =
        some (buildDecision (applyEvaluationOverrides f (getEvaluationFlags expected)))) :
    shouldCheckAlcoholContent expected = false ∧
    (mergeCandidates candidates expected).isSome = true ∧
    ∀ lbl dec, mergeCandidates candidates expected = some (lbl, dec) →
      dec.fields.alcoholContent = 1 := by
  have hsc : shouldCheckAlcoholContent expected = false := by
    rcases hbeer with h | h <;> simp [shouldCheckAlcoholContent, h]
  have hincl : (getEvaluationFlags expected).includeAlcohol = false := by
    simp [getEvaluationFlags, hsc]
  have hscore : ∀ cand ∈ candidates,
      fieldScore (candidateFieldsOf (getEvaluationFlags expected) cand)
        .alcoholContent = 1 := by
    intro cand hcand
    rcases heval cand hcand with hnone | ⟨f, hsome⟩
    · simp [candidateFieldsOf, hnone, buildDefaultFields, hincl, fieldScore]
    · simp [candidateFieldsOf, hsome, buildDecision, applyEvaluationOverrides,
        hincl, fieldScore]
  have hacc : hasAccurateFor candidates expected .alcoholContent = true := by
    rcases hcs : candidates with _ | ⟨c0, rest⟩
    · exact absurd hcs hne
    · apply List.any_eq_true.mpr
      refine ⟨mkContender (getEvaluationFlags expected)
        (getExpectedValue expected .alcoholContent) .alcoholContent 0 c0, ?_, ?_⟩
      · exact List.mem_cons_self _ _
      · simp only [mkContender, beq_iff_eq]
        exact hscore c0 (hcs ▸ List.mem_cons_self _ _)
  refine ⟨hsc, mergeCandidates_isSome candidates expected hne, ?_⟩
  intro lbl dec hmerge
  obtain ⟨-, -, -, -, -, -, -, -, hd⟩ := mergeCandidates_some_elim hmerge
  subst hd
  simp [mergedFieldsFor, mergedScoreFor, hacc]

/-- Witness for C3 on the demo merge. -/
theorem beer_merged_alcohol_one_witness :
    shouldCheckAlcoholContent demoBeerExpected = false ∧
    (mergeCandidates demoCandidates demoBeerExpected).isSome = true ∧
    demoMergedPair.2.fields.alcoholContent = 1 :=
  have h := beer_merged_alcohol_one demoBeerExpected demoCandidates (Or.inl rfl)
    (by simp [demoCandidates])
    (by
      intro c hc
      simp only [demoCandidates, List.mem_singleton] at hc
      subst hc
      exact Or.inl rfl)
  ⟨h.1, h.2.1, h.2.2 demoMergedPair.1 demoMergedPair.2 (by decide)⟩

/-- C10: the merge is total on non-empty candidate lists — the per-field
pool is never empty because the score-1 restriction is applied exactly when
a score-1 contender exists, so the fold inside `selectContender` always has
an element and `mergeCandidates` succeeds. -/
theorem mergeCandidates_pool_total (candidates : List ExtractionCandidate)
    (expected : ExpectedAlcoholLabel) (hne : candidates ≠ []) :
    (∀ key, poolOf (contendersFor candidates expected key)
        (hasAccurateFor candidates expected key) ≠ [] ∧
      (hasAccurateFor candidates expected key = true ↔
        ∃ c ∈ contendersFor candidates expected key, c.score = 1)) ∧
    (mergeCandidates candidates expected).isSome = true := by
  refine ⟨fun key => ⟨pool_ne_nil candidates expected key hne, ?_⟩,
    mergeCandidates_isSome candidates expected hne⟩
  simp [hasAccurateFor, List.any_eq_true]

/-- Witness for C10 on the demo merge. -/
theorem mergeCandidates_pool_total_witness :
    poolOf (contendersFor demoCandidates demoBeerExpected .brandName)
      (hasAccurateFor demoCandidates demoBeerExpected .brandName) ≠ [] ∧
    (mergeCandidates demoCandidates demoBeerExpected).isSome = true :=
  have h := mergeCandidates_pool_total demoCandidates demoBeerExpected
    (by simp [demoCandidates])
  ⟨(h.1 .brandName).1, h.2⟩

/-- A pure rate-limit rejection. -/
def demoRateLimitError : CallError :=
  { status := some 429, code := some "rate_limit_exceeded", message := "Requests throttled" }

/-- Witness for C6 with a single always-throttled deployment. -/
theorem callWithModelFallback_capacity_witness :
    callWithModelFallback ["gpt-4o"]
        (fun _ => (.error demoRateLimitError : Except CallError Unit)) =
      (.error capacityError, [2000, 4000, 8000, 15000]) ∧
    capacityError.status = some 429 ∧
    (∀ delayMs ∈ [2000, 4000, 8000, 15000], delayMs ≤ RATE_LIMIT_MAX_DELAY_MS) :=
  callWithModelFallback_capacity ["gpt-4o"] _ (by simp)
    (fun d _ => ⟨demoRateLimitError, rfl, by decide⟩)

/-! ## Edit-distance lemmas for the government-warning comparator -/

lemma levenshteinDistance_self : ∀ l : List Char, levenshteinDistance l l = 0 := by
  intro l
  induction l with
  | nil => simp [levenshteinDistance]
  | cons x xs ih =>
    simp [levenshteinDistance, ih]

lemma levenshteinDistance_length_bound (xs ys : List Char) :
    xs.length ≤ levenshteinDistance xs ys + ys.length ∧
    ys.length ≤ levenshteinDistance xs ys + xs.length := by
  have H : ∀ n (xs ys : List Char), xs.length + ys.length = n →
      xs.length ≤ levenshteinDistance xs ys + ys.length ∧
      ys.length ≤ levenshteinDistance xs ys + xs.length := by
    intro n
    induction n using Nat.strong_induction_on with
    | _ n ih =>
      intro xs ys hn
      rcases xs with _ | ⟨x, xs⟩
      · simp [levenshteinDistance]
      · rcases ys with _ | ⟨y, ys⟩
        · simp [levenshteinDistance]
        · have h1 := ih (xs.length + (y :: ys).length)
            (by subst hn; simp only [List.length_cons]; omega) xs (y :: ys) rfl
          have h2 := ih ((x :: xs).length + ys.length)
            (by subst hn; simp only [List.length_cons]; omega) (x :: xs) ys rfl
          have h3 := ih (xs.length + ys.length)
            (by subst hn; simp only [List.length_cons]; omega) xs ys rfl
          simp only [levenshteinDistance, List.length_cons] at *
          split_ifs <;> omega
  exact H (xs.length + ys.length) xs ys rfl

/-- The source's `isSingleCharDifference` coincides with the edit-distance
bound 1: the equality shortcut is distance 0 and the length-difference
guard only prunes distances of at least 2. -/
lemma isSingleCharDifference_iff (a b : String) :
    isSingleCharDifference a b = true ↔
      levenshteinDistance a.toList b.toList ≤ 1 := by
  unfold isSingleCharDifference
  split_ifs with h1 h2
  · subst h1
    simp [levenshteinDistance_self]
  · have hb := levenshteinDistance_length_bound a.toList b.toList
    have e1 : a.length = a.toList.length := rfl
    have e2 : b.length = b.toList.length := rfl
    simp only [false_iff, not_le]
    omega
  · simp

lemma string_length_pos_of_ne_empty {s : String} (h : s ≠ "") : 0 < s.length := by
  rcases s with ⟨data⟩
  cases data with
  | nil => exact absurd rfl h
  | cons c cs => simp [String.length]

/-- C8: the comparator's government-warning check passes exactly when the
similarity-normalized texts are equal, or the normalized extracted text
contains the normalized expected text, or both whitespace-normalized
uppercased texts are recognized standard warnings, or the normalized texts
are within one character edit; otherwise it fails, and it never directly
yields a warning status.  (Stated for expected texts that survive
normalization.) -/
theorem compareGovernmentWarning_pass_iff (extracted : Option GovernmentWarningField)
    (expected : GovernmentWarningField)
    (hnorm : normalizeForSimilarity expected.text ≠ "") :
    (compareGovernmentWarning extracted expected).status ≠ Status.warn ∧
    ((compareGovernmentWarning extracted expected).status = Status.pass ∨
      (compareGovernmentWarning extracted expected).status = Status.fail) ∧
    ((compareGovernmentWarning extracted expected).status = Status.pass ↔
      (normalizeForSimilarity ((extracted.map (·.text)).getD "") =
          normalizeForSimilarity expected.text ∨
       stringIncludes (normalizeForSimilarity ((extracted.map (·.text)).getD ""))
          (normalizeForSimilarity expected.text) = true ∨
       (normalizeGovWarning expected.text ∈ STANDARD_GOV_WARNINGS ∧
        normalizeGovWarning ((extracted.map (·.text)).getD "") ∈ STANDARD_GOV_WARNINGS) ∨
       levenshteinDistance
          (normalizeForSimilarity ((extracted.map (·.text)).getD "")).toList
          (normalizeForSimilarity expected.text).toList ≤ 1)) := by
  have hlen : 0 < (normalizeForSimilarity expected.text).length :=
    string_length_pos_of_ne_empty hnorm
  simp only [compareGovernmentWarning]
  split_ifs with h1 h2
  · rw [Bool.or_eq_true, Bool.and_eq_true] at h1
    refine ⟨by simp, by simp, ?_⟩
    simp only [true_iff]
    rcases h1 with hsingle | ⟨-, hinc⟩
    · exact Or.inr (Or.inr (Or.inr ((isSingleCharDifference_iff _ _).mp hsingle)))
    · exact Or.inr (Or.inl hinc)
  · rw [Bool.and_eq_true, decide_eq_true_iff, decide_eq_true_iff] at h2
    refine ⟨by simp, by simp, ?_⟩
    simp only [true_iff]
    exact Or.inr (Or.inr (Or.inl ⟨h2.1, h2.2⟩))
  · rw [Bool.or_eq_true, Bool.and_eq_true] at h1
    push_neg at h1
    obtain ⟨hsingle, hrest⟩ := h1
    have hsingle' : isSingleCharDifference
        (normalizeForSimilarity ((extracted.map (·.text)).getD ""))
        (normalizeForSimilarity expected.text) = false :=
      Bool.eq_false_iff.mpr hsingle
    have hlev : ¬ levenshteinDistance
        (normalizeForSimilarity ((extracted.map (·.text)).getD "")).toList
        (normalizeForSimilarity expected.text).toList ≤ 1 := by
      intro habs
      rw [← isSingleCharDifference_iff] at habs
      rw [hsingle'] at habs
      exact absurd habs (by simp)
    have hinc : stringIncludes
        (normalizeForSimilarity ((extracted.map (·.text)).getD ""))
        (normalizeForSimilarity expected.text) = false := by
      cases hb : stringIncludes
          (normalizeForSimilarity ((extracted.map (·.text)).getD ""))
          (normalizeForSimilarity expected.text) with
      | false => rfl
      | true => exact absurd hb (hrest (by simpa using hlen))
    rw [Bool.and_eq_true, decide_eq_true_iff, decide_eq_true_iff] at h2
    push_neg at h2
    refine ⟨by simp, by simp, ?_⟩
    constructor
    · intro habs
      simp at habs
    · intro habs
      exfalso
      rcases habs with heq | hi | ⟨hs1, hs2⟩ | hl
      · apply hlev
        rw [heq, levenshteinDistance_self]
        omega
      · rw [hinc] at hi
        exact absurd hi (by simp)
      · exact h2 hs1 hs2
      · exact hlev hl

/-- Demo expected warning text. -/
def demoGovExpected : GovernmentWarningField := ⟨"ABCDE", true, true⟩

/-- Demo extracted warning text, equal to the expected one after
normalization. -/
def demoGovExtracted : GovernmentWarningField := ⟨"ABCDE!", true, true⟩

/-- Witness for C8 on a one-punctuation-mark difference. -/
theorem compareGovernmentWarning_pass_iff_witness :
    (compareGovernmentWarning (some demoGovExtracted) demoGovExpected).status ≠
      Status.warn ∧
    ((compareGovernmentWarning (some demoGovExtracted) demoGovExpected).status =
        Status.pass ∨
      (compareGovernmentWarning (some demoGovExtracted) demoGovExpected).status =
        Status.fail) ∧
    ((compareGovernmentWarning (some demoGovExtracted) demoGovExpected).status =
        Status.pass ↔
      (normalizeForSimilarity (((some demoGovExtracted).map (·.text)).getD "") =
          normalizeForSimilarity demoGovExpected.text ∨
       stringIncludes
          (normalizeForSimilarity (((some demoGovExtracted).map (·.text)).getD ""))
          (normalizeForSimilarity demoGovExpected.text) = true ∨
       (normalizeGovWarning demoGovExpected.text ∈ STANDARD_GOV_WARNINGS ∧
        normalizeGovWarning (((some demoGovExtracted).map (·.text)).getD "") ∈
          STANDARD_GOV_WARNINGS) ∨
       levenshteinDistance
          (normalizeForSimilarity
            (((some demoGovExtracted).map (·.text)).getD "")).toList
          (normalizeForSimilarity demoGovExpected.text).toList ≤ 1)) :=
  compareGovernmentWarning_pass_iff (some demoGovExtracted) demoGovExpected
    (by decide)

/-! ## Single-failure downgrade (C9) -/

/-- A produced row keeps the field label it was built for. -/
lemma buildEvaluationResult_field {field expectedText extractedText : String}
    {evaluation : Option AccuracyDecision} {key : FieldKey}
    {passMessage failMessage : String} {r : VerificationResult}
    (h : buildEvaluationResult field expectedText extractedText evaluation key
      passMessage failMessage = some r) : r.field = field := by
  unfold buildEvaluationResult at h
  rcases evaluation with _ | ev <;> split_ifs at h <;>
    (injection h with h; rw [← h])

/-- The only Government Warning row among the raw comparison rows is the
one produced by `compareGovernmentWarning`. -/
lemma compareLabelsRaw_gw_unique (extracted : ExtractedAlcoholLabel)
    (expected : ExpectedAlcoholLabel) (evaluation : Option AccuracyDecision) :
    ∀ r ∈ compareLabelsRaw extracted expected evaluation,
      r.field = "Government Warning" →
      r = compareGovernmentWarning extracted.governmentWarning
        expected.governmentWarning := by
  intro r hr hf
  simp only [compareLabelsRaw, List.mem_filterMap, List.mem_cons,
    List.not_mem_nil, or_false, id] at hr
  obtain ⟨a, ha, hra⟩ := hr
  rcases ha with h | h | h | h | h | h | h <;> subst h
  · exact absurd ((buildEvaluationResult_field hra).symm.trans hf) (by decide)
  · exact absurd ((buildEvaluationResult_field hra).symm.trans hf) (by decide)
  · exact absurd ((buildEvaluationResult_field hra).symm.trans hf) (by decide)
  · exact absurd ((buildEvaluationResult_field hra).symm.trans hf) (by decide)
  · injection hra with hra
    exact hra.symm
  · exact absurd ((buildEvaluationResult_field hra).symm.trans hf) (by decide)
  · exact absurd ((buildEvaluationResult_field hra).symm.trans hf) (by decide)

/-- Rewriting the first Government Warning row to a warning clears the only
failure when that row is the unique failure and every other row passes. -/
lemma setFirstGovWarningWarn_spec :
    ∀ (l : List VerificationResult) (gwr : VerificationResult),
      l.filter (fun r => decide (r.status = Status.fail)) = [gwr] →
      gwr.field = "Government Warning" →
      (∀ r ∈ l, r.field = "Government Warning" → r.status = Status.fail) →
      (∀ r ∈ l, r.status = Status.fail ∨ r.status = Status.pass) →
      (∃ r ∈ setFirstGovWarningWarn l,
        r.field = "Government Warning" ∧ r.status = Status.warn) ∧
      (∀ r ∈ setFirstGovWarningWarn l, r.status ≠ Status.fail) := by
  intro l
  induction l with
  | nil =>
    intro gwr hfilter
    simp at hfilter
  | cons h t ih =>
    intro gwr hfilter hgw huniq hop
    by_cases hf : h.field = "Government Warning"
    · have hs : h.status = Status.fail := huniq h (List.mem_cons_self _ _) hf
      have hft : t.filter (fun r => decide (r.status = Status.fail)) = [] := by
        rw [List.filter_cons_of_pos (by simp [hs])] at hfilter
        injection hfilter
      have htpass : ∀ r ∈ t, r.status ≠ Status.fail := by
        intro r hr habs
        have : r ∈ t.filter (fun r => decide (r.status = Status.fail)) :=
          List.mem_filter.mpr ⟨hr, by simp [habs]⟩
        rw [hft] at this
        exact absurd this (List.not_mem_nil r)
      refine ⟨⟨{ h with status := Status.warn }, ?_, hf, rfl⟩, ?_⟩
      · simp [setFirstGovWarningWarn, hf]
      · intro r hr
        simp only [setFirstGovWarningWarn, if_pos hf, List.mem_cons] at hr
        rcases hr with rfl | hr
        · simp
        · exact htpass r hr
    · have hs : h.status = Status.pass := by
        rcases hop h (List.mem_cons_self _ _) with hfail | hpass
        · exfalso
          have : h ∈ (h :: t).filter (fun r => decide (r.status = Status.fail)) :=
            List.mem_filter.mpr ⟨List.mem_cons_self _ _, by simp [hfail]⟩
          rw [hfilter] at this
          rw [List.mem_singleton.mp this] at hf
          exact hf hgw
        · exact hpass
      have hft : t.filter (fun r => decide (r.status = Status.fail)) = [gwr] := by
        rw [List.filter_cons_of_neg (by simp [hs])] at hfilter
        exact hfilter
      obtain ⟨hex, hnofail⟩ := ih gwr hft hgw
        (fun r hr => huniq r (List.mem_cons_of_mem _ hr))
        (fun r hr => hop r (List.mem_cons_of_mem _ hr))
      refine ⟨?_, ?_⟩
      · obtain ⟨r, hr, hrf, hrs⟩ := hex
        exact ⟨r, by simp [setFirstGovWarningWarn, hf, List.mem_cons_of_mem, hr], hrf, hrs⟩
      · intro r hr
        simp only [setFirstGovWarningWarn, if_neg hf, List.mem_cons] at hr
        rcases hr with rfl | hr
        · simp [hs]
        · exact hnofail r hr

/-- C9: when the raw comparison rows contain exactly one failure, that
failure is the Government Warning row and every other row passes,
`compareLabels` downgrades the Government Warning row to a warning and the
overall status is a warning, not a failure. -/
theorem compareLabels_single_gw_fail_downgrade
    (extracted : ExtractedAlcoholLabel) (expected : ExpectedAlcoholLabel)
    (evaluation : Option AccuracyDecision) (gwr : VerificationResult)
    (hfilter : (compareLabelsRaw extracted expected evaluation).filter
        (fun r => decide (r.status = Status.fail)) = [gwr])
    (hgw : gwr.field = "Government Warning")
    (hothers : ∀ r ∈ compareLabelsRaw extracted expected evaluation,
      r.status = Status.fail ∨ r.status = Status.pass) :
    (∃ r ∈ compareLabels extracted expected evaluation,
      r.field = "Government Warning" ∧ r.status = Status.warn) ∧
    (∀ r ∈ compareLabels extracted expected evaluation,
      r.status ≠ Status.fail) ∧
    calculateOverallStatus (compareLabels extracted expected evaluation) =
      Status.warn := by
  have hgwr_mem : gwr ∈ compareLabelsRaw extracted expected evaluation := by
    have : gwr ∈ (compareLabelsRaw extracted expected evaluation).filter
        (fun r => decide (r.status = Status.fail)) := by
      rw [hfilter]
      exact List.mem_singleton.mpr rfl
    exact (List.mem_filter.mp this).1
  have hgwr_eq := compareLabelsRaw_gw_unique extracted expected evaluation gwr
    hgwr_mem hgw
  have huniq : ∀ r ∈ compareLabelsRaw extracted expected evaluation,
      r.field = "Government Warning" → r.status = Status.fail := by
    intro r hr hf
    have hr_eq := compareLabelsRaw_gw_unique extracted expected evaluation r hr hf
    rw [hr_eq, ← hgwr_eq]
    have : gwr ∈ (compareLabelsRaw extracted expected evaluation).filter
        (fun r => decide (r.status = Status.fail)) := by
      rw [hfilter]
      exact List.mem_singleton.mpr rfl
    simpa using (List.mem_filter.mp this).2
  have hdown : compareLabels extracted expected evaluation =
      setFirstGovWarningWarn (compareLabelsRaw extracted expected evaluation) := by
    unfold compareLabels applyGovWarningDowngrade
    rw [hfilter]
    simp [hgw]
  obtain ⟨hex, hnofail⟩ := setFirstGovWarningWarn_spec
    (compareLabelsRaw extracted expected evaluation) gwr hfilter hgw huniq hothers
  rw [hdown]
  refine ⟨hex, hnofail, ?_⟩
  obtain ⟨r, hr, -, hrs⟩ := hex
  unfold calculateOverallStatus
  rw [if_neg, if_pos]
  · exact List.any_eq_true.mpr ⟨r, hr, by simp [hrs]⟩
  · intro habs
    obtain ⟨r', hr', hr's⟩ := List.any_eq_true.mp habs
    exact hnofail r' hr' (by simpa using hr's)

/-- An all-one score record. -/
def onesFields : FieldAccuracy :=
  { brandName := 1, classType := 1, alcoholContent := 1, netContents := 1,
    governmentWarning := 1, bottlerProducer := 1, countryOfOrigin := 1,
    additivesDisclosed := 1 }

/-- Reference record for the downgrade demo. -/
def demoCompareExpected : ExpectedAlcoholLabel :=
  { productType := none
    brandName := ⟨"B"⟩
    classType := ⟨"T"⟩
    alcoholContent := some ⟨"40"⟩
    netContents := ⟨"750"⟩
    governmentWarning := ⟨"ABCDE", true, true⟩
    bottlerProducer := ⟨"P"⟩
    countryOfOrigin := none
    ageYears := none
    isImported := false
    beerHasAddedFlavorsWithAlcohol := false
    additivesDetected := noAdditives }

/-- Extraction matching everywhere except the garbled warning. -/
def demoCompareExtracted : ExtractedAlcoholLabel :=
  { brandName := some ⟨"B"⟩
    classType := some ⟨"T"⟩
    alcoholContent := some ⟨"40"⟩
    netContents := some ⟨"750"⟩
    governmentWarning := some ⟨"VW", true, true⟩
    bottlerProducer := some ⟨"P"⟩
    countryOfOrigin := none
    additivesDisclosed := none }

/-- Witness for C9: all substantive fields pass under an all-one
evaluation, only the government warning fails, and the overall status is a
warning. -/
theorem compareLabels_single_gw_fail_downgrade_witness :
    (∃ r ∈ compareLabels demoCompareExtracted demoCompareExpected
        (some ⟨onesFields, true⟩),
      r.field = "Government Warning" ∧ r.status = Status.warn) ∧
    (∀ r ∈ compareLabels demoCompareExtracted demoCompareExpected
        (some ⟨onesFields, true⟩),
      r.status ≠ Status.fail) ∧
    calculateOverallStatus (compareLabels demoCompareExtracted demoCompareExpected
        (some ⟨onesFields, true⟩)) = Status.warn :=
  compareLabels_single_gw_fail_downgrade demoCompareExtracted demoCompareExpected
    (some ⟨onesFields, true⟩)
    (compareGovernmentWarning demoCompareExtracted.governmentWarning
      demoCompareExpected.governmentWarning)
    (by decide) (by decide) (by decide)

end AlcoholLabel
